import Mathlib

/-!
Verification of the ephemeris cache and query manager exposed through
`src/tudatpy_wasm/interface/calceph/expose_calceph_wasm.cpp`.

The binding file delegates every operation to the
`CalcephEphemerisManager` singleton declared in
`tudat/astro/ephemerides/calcephEphemeris.h`, whose implementation is not
part of the excerpt.  The manager and the body-name registry are therefore
modelled from the specification (`spec.md` §3–§7); the thin binding
wrappers themselves are translated from the C++ source.  Epochs and state
components (C++ `double`) are modelled as rationals, file paths and frames
as strings, NAIF identifiers as integers.
-/

namespace TudatWasm

/-- Modelled from the spec: the Body-Name Registry's fixed table of
well-known body names and their standardized numeric identifiers
(spec §4.1: e.g. "Earth" → 399, "Sun" → 10, "SSB" → 0); static, loaded
once, no runtime mutation. -/
def bodyTable : List (String × Int) :=
  [("SSB", 0), ("Sun", 10), ("Mercury", 199), ("Venus", 299),
   ("Earth", 399), ("Moon", 301), ("Mars", 499), ("Jupiter", 599),
   ("Saturn", 699), ("Uranus", 799), ("Neptune", 899)]

/-- Modelled from the spec: `nameToId` — case-sensitive lookup against the
fixed table; `none` models the `UnknownBodyName` failure (spec §4.1). -/
def nameToId (name : String) : Option Int :=
  (bodyTable.find? (fun p => p.1 == name)).map Prod.snd

/-- Modelled from the spec: `idToName` — inverse lookup; `none` models the
`UnknownBodyId` failure (spec §4.1). -/
def idToName (i : Int) : Option String :=
  (bodyTable.find? (fun p => p.2 == i)).map Prod.fst

/-- Modelled from the spec: `EphemerisKey` — composite immutable key
`(target, observer, frame)`; two keys are equal iff all three components
match exactly (spec §3). -/
structure EphemerisKey where
  target : Int
  observer : Int
  frame : String
deriving DecidableEq

/-- A 6-element Cartesian state `[x, y, z, vx, vy, vz]` (the model of
`Eigen::Vector6d`). -/
def StateVector6 : Type := ℚ × ℚ × ℚ × ℚ × ℚ × ℚ

/-- Modelled from the spec: one kernel file as seen through the
kernel-reader collaborator (spec §6): the set of `(targetId, observerId,
frame)` triples it serves, its validity interval `[startEpoch, endEpoch]`,
and the interpolated state it reports at an epoch. -/
structure Kernel where
  serves : List (Int × Int × String)
  startEpoch : ℚ
  endEpoch : ℚ
  stateAt : ℚ → StateVector6

/-- Modelled from the spec: the filesystem seen by `open` (spec §6):
`none` models an I/O or format error for that path, `some` a kernel that
opens successfully. -/
def FileSystem : Type := String → Option Kernel

/-- Modelled from the spec: the error taxonomy of spec §7.
`UnsupportedPair` is absent because it is surfaced as the boolean `false`
result of `loadSource`, not as an error. -/
inductive EphemerisError where
  | UnknownBodyName
  | UnknownBodyId
  | KernelOpenFailure
  | EphemerisNotLoaded
  | EpochOutOfBounds
deriving DecidableEq

/-- Modelled from the spec: the Ephemeris Cache Manager's state — the
Cache Index mapping each `EphemerisKey` to the source that resolves it
(spec §3). -/
structure ManagerState where
  index : List (EphemerisKey × Kernel)

/-- The manager before any load: an empty index. -/
def ManagerState.empty : ManagerState := ⟨[]⟩

/-- Look a key up in the index (pure lookup, spec §4.2). -/
def lookupKey (k : EphemerisKey) (s : ManagerState) : Option Kernel :=
  (s.index.find? (fun p => p.1 == k)).map Prod.snd

/-- Modelled from the spec: insert/overwrite the mapping for a key
(last-load-wins, spec §3): any existing entry for the key is dropped and
the new one takes its place. -/
def insertKey (k : EphemerisKey) (kern : Kernel) (s : ManagerState) : ManagerState :=
  ⟨(k, kern) :: s.index.filter (fun p => p.1 != k)⟩

/-- Modelled from the spec: `loadSourceByIds` (spec §4.2) — opens the
kernel at `path`, returns `false` (a normal result) when the file opens
but does not serve the requested triple, registers the key and returns
`true` when it does, and fails only on an open fault. -/
def loadSourceByIds (fs : FileSystem) (path : String) (targetId observerId : Int)
    (frame : String) (s : ManagerState) : Except EphemerisError (Bool × ManagerState) :=
  match fs path with
  | none => .error .KernelOpenFailure
  | some kern =>
      if (targetId, observerId, frame) ∈ kern.serves then
        .ok (true, insertKey ⟨targetId, observerId, frame⟩ kern s)
      else
        .ok (false, s)

/-- Modelled from the spec: `loadSource` (spec §4.2) — resolves the two
names through the registry (propagating resolution failure, spec §4.1)
then behaves exactly as `loadSourceByIds`. -/
def loadSource (fs : FileSystem) (path target observer frame : String)
    (s : ManagerState) : Except EphemerisError (Bool × ManagerState) :=
  match nameToId target, nameToId observer with
  | some t, some o => loadSourceByIds fs path t o frame s
  | _, _ => .error .UnknownBodyName

/-- Modelled from the spec: `isAvailable` (spec §4.2) — pure lookup that
never throws: an unresolvable name yields `false`, not an error. -/
def isAvailable (target observer frame : String) (s : ManagerState) : Bool :=
  match nameToId target, nameToId observer with
  | some t, some o => (lookupKey ⟨t, o, frame⟩ s).isSome
  | _, _ => false

/-- Modelled from the spec: the state query once the key is resolved —
`EphemerisNotLoaded` for an absent key, `EpochOutOfBounds` for an epoch
strictly outside the source's validity interval, otherwise the
interpolated state delegated to the kernel reader. -/
def getStateAtKey (k : EphemerisKey) (epoch : ℚ) (s : ManagerState) :
    Except EphemerisError StateVector6 :=
  match lookupKey k s with
  | none => .error .EphemerisNotLoaded
  | some kern =>
      if epoch < kern.startEpoch ∨ kern.endEpoch < epoch then
        .error .EpochOutOfBounds
      else
        .ok (kern.stateAt epoch)

/-- Modelled from the spec: `getState` (spec §4.2) — resolves names
through the registry, then queries at the resolved key. -/
def getState (target observer frame : String) (epoch : ℚ) (s : ManagerState) :
    Except EphemerisError StateVector6 :=
  match nameToId target, nameToId observer with
  | some t, some o => getStateAtKey ⟨t, o, frame⟩ epoch s
  | _, _ => .error .UnknownBodyName

/-- Modelled from the spec: the time-bounds query once the key is
resolved. -/
def timeBoundsAtKey (k : EphemerisKey) (s : ManagerState) :
    Except EphemerisError (ℚ × ℚ) :=
  match lookupKey k s with
  | none => .error .EphemerisNotLoaded
  | some kern => .ok (kern.startEpoch, kern.endEpoch)

/-- Modelled from the spec: `getTimeBounds` (spec §4.2) — the
`[startEpoch, endEpoch]` of the resolved source, `EphemerisNotLoaded` when
the key is absent. -/
def getTimeBounds (target observer frame : String) (s : ManagerState) :
    Except EphemerisError (ℚ × ℚ) :=
  match nameToId target, nameToId observer with
  | some t, some o => timeBoundsAtKey ⟨t, o, frame⟩ s
  | _, _ => .error .UnknownBodyName

/-- The decimal digit character for `d < 10`. -/
def digitChar (d : Nat) : Char := Char.ofNat (48 + d)

/-- Decimal rendering of a natural number (most significant digit
first). -/
def natRepr (n : Nat) : String := ⟨(Nat.digits 10 n).reverse.map digitChar⟩

/-- Decimal rendering of an integer, a leading '-' for negatives. -/
def intRepr (i : Int) : String :=
  match i with
  | .ofNat n => natRepr n
  | .negSucc n => ⟨'-' :: ((natRepr (n + 1)).data)⟩

/-- Modelled from the spec: the printable label of a body identifier in a
canonical key string — the registry name when the identifier is mapped,
its decimal rendering otherwise (the spec fixes only the mapped case
through the `"Earth_Sun_J2000"` example). -/
def idLabel (i : Int) : String := (idToName i).getD (intRepr i)

/-- Modelled from the spec: the canonical key string
`"target_observer_frame"` of `listLoaded` (spec §4.2). -/
def keyString (k : EphemerisKey) : String :=
  idLabel k.target ++ "_" ++ idLabel k.observer ++ "_" ++ k.frame

/-- Modelled from the spec: `listLoaded` (spec §4.2) — one canonical key
string per loaded key, derived purely from the index's key set. -/
def listLoaded (s : ManagerState) : List String :=
  s.index.map (fun p => keyString p.1)

/-- Modelled from the spec: `clearAll` (spec §4.2) — empties the index;
total, hence it never fails. -/
def clearAll (_s : ManagerState) : ManagerState := ⟨[]⟩

/-! ## Binding wrappers, translated from `expose_calceph_wasm.cpp` -/

/-- Binding `calceph_load_spk` (expose_calceph_wasm.cpp:39–43): delegates to the
manager's name-based load. -/
def calceph_load_spk (fs : FileSystem) (spkPath target observer frame : String)
    (s : ManagerState) : Except EphemerisError (Bool × ManagerState) :=
  loadSource fs spkPath target observer frame s

/-- Binding `calceph_load_spk_by_naif_id` (expose_calceph_wasm.cpp:53–57):
delegates to the manager's id-based load. -/
def calceph_load_spk_by_naif_id (fs : FileSystem) (spkPath : String)
    (targetId observerId : Int) (frame : String) (s : ManagerState) :
    Except EphemerisError (Bool × ManagerState) :=
  loadSourceByIds fs spkPath targetId observerId frame s

/-- Binding `calceph_is_available` (expose_calceph_wasm.cpp:62–66). -/
def calceph_is_available (target observer frame : String) (s : ManagerState) : Bool :=
  isAvailable target observer frame s

/-- Binding `calceph_get_state` (expose_calceph_wasm.cpp:76–81): wraps the
manager's 6-component state into the marshalled sequence
`[x, y, z, vx, vy, vz]` (the `Vector6dWrapper`). -/
def calceph_get_state (target observer frame : String) (epoch : ℚ)
    (s : ManagerState) : Except EphemerisError (List ℚ) :=
  (getState target observer frame epoch s).map
    (fun v => [v.1, v.2.1, v.2.2.1, v.2.2.2.1, v.2.2.2.2.1, v.2.2.2.2.2])

/-- Binding `calceph_get_time_bounds` (expose_calceph_wasm.cpp:87–92): returns
`{bounds.first, bounds.second}` as a two-element vector. -/
def calceph_get_time_bounds (target observer frame : String) (s : ManagerState) :
    Except EphemerisError (List ℚ) :=
  (getTimeBounds target observer frame s).map (fun b => [b.1, b.2])

/-- Binding `calceph_list_loaded` (expose_calceph_wasm.cpp:98–101). -/
def calceph_list_loaded (s : ManagerState) : List String :=
  listLoaded s

/-- Binding `calceph_clear_all` (expose_calceph_wasm.cpp:106–109). -/
def calceph_clear_all (s : ManagerState) : ManagerState :=
  clearAll s

/-- Binding `calceph_body_name_to_naif_id` (expose_calceph_wasm.cpp:116–119). -/
def calceph_body_name_to_naif_id (name : String) : Option Int :=
  nameToId name

/-- Binding `calceph_naif_id_to_body_name` (expose_calceph_wasm.cpp:126–129). -/
def calceph_naif_id_to_body_name (naifId : Int) : Option String :=
  idToName naifId

/-! ## Reachable manager states -/

/-- The states the manager can be in: the empty initial state and
everything the exposed mutating operations can produce from it. -/
inductive Reachable : ManagerState → Prop where
  | init : Reachable ManagerState.empty
  | load (fs : FileSystem) (path target observer frame : String)
      (s : ManagerState) (b : Bool) (s' : ManagerState) :
      Reachable s → loadSource fs path target observer frame s = .ok (b, s') →
      Reachable s'
  | loadByIds (fs : FileSystem) (path : String) (targetId observerId : Int)
      (frame : String) (s : ManagerState) (b : Bool) (s' : ManagerState) :
      Reachable s → loadSourceByIds fs path targetId observerId frame s = .ok (b, s') →
      Reachable s'
  | clear (s : ManagerState) : Reachable s → Reachable (clearAll s)

/-! ## Registry facts -/

/-- The fixed table maps equal names to equal identifiers. -/
theorem bodyTable_name_functional :
    ∀ p ∈ bodyTable, ∀ q ∈ bodyTable, p.1 = q.1 → p.2 = q.2 := by decide

/-- A successful inverse lookup exhibits a table entry. -/
theorem idToName_mem {i : Int} {n : String} (h : idToName i = some n) :
    (n, i) ∈ bodyTable := by
  unfold idToName at h
  cases hf : bodyTable.find? (fun p => p.2 == i) with
  | none => rw [hf] at h; simp at h
  | some q =>
    rw [hf] at h
    simp at h
    have hm := List.mem_of_find?_eq_some hf
    have hp : q.2 = i := by simpa using List.find?_some hf
    have hq : q = (n, i) := by
      cases q; simp_all
    rw [hq] at hm; exact hm

/-- A successful name lookup exhibits a table entry. -/
theorem nameToId_mem {n : String} {i : Int} (h : nameToId n = some i) :
    (n, i) ∈ bodyTable := by
  unfold nameToId at h
  cases hf : bodyTable.find? (fun p => p.1 == n) with
  | none => rw [hf] at h; simp at h
  | some q =>
    rw [hf] at h
    simp at h
    have hm := List.mem_of_find?_eq_some hf
    have hp : q.1 = n := by simpa using List.find?_some hf
    have hq : q = (n, i) := by
      cases q; simp_all
    rw [hq] at hm; exact hm

/-! ## The canonical key string is injective -/

theorem digitChar_injOn : ∀ a, a < 10 → ∀ b, b < 10 → digitChar a = digitChar b → a = b := by
  decide

theorem digitChar_ne_underscore : ∀ d, d < 10 → digitChar d ≠ '_' := by decide

theorem digitChar_ne_dash : ∀ d, d < 10 → digitChar d ≠ '-' := by decide

theorem natRepr_data (n : Nat) : (natRepr n).data = (Nat.digits 10 n).reverse.map digitChar :=
  rfl

theorem mem_natRepr_data {c : Char} {n : Nat} (h : c ∈ (natRepr n).data) :
    ∃ d, d < 10 ∧ c = digitChar d := by
  rw [natRepr_data] at h
  rcases List.mem_map.mp h with ⟨d, hd, rfl⟩
  exact ⟨d, Nat.digits_lt_base (by norm_num) (List.mem_reverse.mp hd), rfl⟩

theorem map_digitChar_inj : ∀ l₁ l₂ : List Nat, (∀ x ∈ l₁, x < 10) → (∀ x ∈ l₂, x < 10) →
    l₁.map digitChar = l₂.map digitChar → l₁ = l₂ := by
  intro l₁
  induction l₁ with
  | nil => intro l₂ _ _ h; cases l₂ <;> simp_all
  | cons a t ih =>
    intro l₂ h₁ h₂ h
    cases l₂ with
    | nil => simp at h
    | cons b t₂ =>
      simp only [List.map_cons, List.cons.injEq] at h
      have hab : a = b :=
        digitChar_injOn a (h₁ a (by simp)) b (h₂ b (by simp)) h.1
      subst hab
      rw [ih t₂ (fun x hx => h₁ x (by simp [hx])) (fun x hx => h₂ x (by simp [hx])) h.2]

theorem natRepr_inj {m n : Nat} (h : natRepr m = natRepr n) : m = n := by
  have hd : (natRepr m).data = (natRepr n).data := by rw [h]
  rw [natRepr_data, natRepr_data] at hd
  have hrev := map_digitChar_inj _ _
    (fun x hx => Nat.digits_lt_base (by norm_num) (List.mem_reverse.mp hx))
    (fun x hx => Nat.digits_lt_base (by norm_num) (List.mem_reverse.mp hx)) hd
  exact Nat.digits.injective 10 (List.reverse_inj.mp hrev)

theorem mem_intRepr_data {c : Char} {i : Int} (h : c ∈ (intRepr i).data) :
    c = '-' ∨ ∃ d, d < 10 ∧ c = digitChar d := by
  cases i with
  | ofNat n => exact Or.inr (mem_natRepr_data h)
  | negSucc n =>
    rcases List.mem_cons.mp h with h₁ | h₁
    · exact Or.inl h₁
    · exact Or.inr (mem_natRepr_data h₁)

theorem intRepr_inj {i j : Int} (h : intRepr i = intRepr j) : i = j := by
  have hd : (intRepr i).data = (intRepr j).data := by rw [h]
  cases i with
  | ofNat m =>
    cases j with
    | ofNat n => exact congrArg Int.ofNat (natRepr_inj h)
    | negSucc n =>
      exfalso
      have hd' : (natRepr m).data = '-' :: (natRepr (n + 1)).data := hd
      have hm : '-' ∈ (natRepr m).data := by
        rw [hd']; exact List.mem_cons_self _ _
      rcases mem_natRepr_data hm with ⟨d, hdlt, hc⟩
      exact digitChar_ne_dash d hdlt hc.symm
  | negSucc m =>
    cases j with
    | ofNat n =>
      exfalso
      have hd' : '-' :: (natRepr (m + 1)).data = (natRepr n).data := hd
      have hm : '-' ∈ (natRepr n).data := by
        rw [← hd']; exact List.mem_cons_self _ _
      rcases mem_natRepr_data hm with ⟨d, hdlt, hc⟩
      exact digitChar_ne_dash d hdlt hc.symm
    | negSucc n =>
      have hdd : '-' :: (natRepr (m + 1)).data = '-' :: (natRepr (n + 1)).data := hd
      have hmn : natRepr (m + 1) = natRepr (n + 1) := by
        have htl := (List.cons.injEq _ _ _ _).mp hdd
        cases hm : natRepr (m + 1); cases hn : natRepr (n + 1)
        rw [hm, hn] at htl
        exact congrArg String.mk (by simpa using htl.2)
      have hmn' : m = n := by
        have := natRepr_inj hmn
        omega
      rw [hmn']

/-- Characters that can never occur in a decimal integer rendering. -/
def nonNumericChar (c : Char) : Bool :=
  c != '-' && (List.range 10).all (fun d => digitChar d != c)

theorem bodyTable_names_nonNumeric :
    ∀ p ∈ bodyTable, p.1.data.any nonNumericChar = true := by decide

theorem name_ne_intRepr {n : String} (hn : n.data.any nonNumericChar = true) (i : Int) :
    n ≠ intRepr i := by
  intro h
  rcases List.any_eq_true.mp hn with ⟨c, hc, hcn⟩
  rw [h] at hc
  simp only [nonNumericChar, Bool.and_eq_true, bne_iff_ne, ne_eq, List.all_eq_true] at hcn
  rcases mem_intRepr_data hc with h₁ | ⟨d, hd, rfl⟩
  · exact hcn.1 h₁
  · exact hcn.2 d (List.mem_range.mpr hd) rfl

theorem idLabel_inj : Function.Injective idLabel := by
  intro i j h
  unfold idLabel at h
  cases hi : idToName i with
  | some n =>
    cases hj : idToName j with
    | some m =>
      rw [hi, hj] at h
      simp only [Option.getD_some] at h
      subst h
      have h₁ := idToName_mem hi
      have h₂ := idToName_mem hj
      simpa using bodyTable_name_functional (n, i) h₁ (n, j) h₂ rfl
    | none =>
      rw [hi, hj] at h
      simp only [Option.getD_some, Option.getD_none] at h
      exact absurd h (name_ne_intRepr (bodyTable_names_nonNumeric (n, i) (idToName_mem hi)) j)
  | none =>
    cases hj : idToName j with
    | some m =>
      rw [hi, hj] at h
      simp only [Option.getD_some, Option.getD_none] at h
      exact absurd h.symm
        (name_ne_intRepr (bodyTable_names_nonNumeric (m, j) (idToName_mem hj)) i)
    | none =>
      rw [hi, hj] at h
      simp only [Option.getD_none] at h
      exact intRepr_inj h

theorem bodyTable_names_no_underscore :
    ∀ p ∈ bodyTable, '_' ∉ p.1.data := by decide

theorem idLabel_no_underscore (i : Int) : '_' ∉ (idLabel i).data := by
  unfold idLabel
  cases hi : idToName i with
  | some n =>
    simpa using bodyTable_names_no_underscore (n, i) (idToName_mem hi)
  | none =>
    intro h
    simp only [Option.getD_none] at h
    rcases mem_intRepr_data h with h₁ | ⟨d, hd, h₂⟩
    · exact absurd h₁ (by decide)
    · exact digitChar_ne_underscore d hd h₂.symm

theorem underscore_split {a₁ r₁ : List Char} :
    ∀ {a₂ : List Char} {r₂ : List Char}, '_' ∉ a₁ → '_' ∉ a₂ →
    a₁ ++ '_' :: r₁ = a₂ ++ '_' :: r₂ → a₁ = a₂ ∧ r₁ = r₂ := by
  induction a₁ with
  | nil =>
    intro a₂ r₂ _ h₂ h
    cases a₂ with
    | nil => simpa using h
    | cons b t =>
      exfalso
      simp only [List.nil_append, List.cons_append, List.cons.injEq] at h
      exact h₂ (h.1 ▸ List.mem_cons_self b t)
  | cons a t ih =>
    intro a₂ r₂ h₁ h₂ h
    cases a₂ with
    | nil =>
      exfalso
      simp only [List.cons_append, List.nil_append, List.cons.injEq] at h
      exact h₁ (h.1 ▸ List.mem_cons_self a t)
    | cons b t₂ =>
      simp only [List.cons_append, List.cons.injEq] at h
      obtain ⟨rfl, hrest⟩ := h
      have := ih (fun hm => h₁ (List.mem_cons_of_mem _ hm))
        (fun hm => h₂ (List.mem_cons_of_mem _ hm)) hrest
      exact ⟨by rw [this.1], this.2⟩

theorem keyString_inj : Function.Injective keyString := by
  intro k₁ k₂ h
  have hd : (keyString k₁).data = (keyString k₂).data := by rw [h]
  unfold keyString at hd
  simp only [String.data_append, List.append_assoc] at hd
  simp only [List.singleton_append] at hd
  obtain ⟨ht, hrest⟩ :=
    underscore_split (idLabel_no_underscore k₁.target) (idLabel_no_underscore k₂.target) hd
  obtain ⟨ho, hf⟩ :=
    underscore_split (idLabel_no_underscore k₁.observer) (idLabel_no_underscore k₂.observer) hrest
  have htarget : k₁.target = k₂.target := by
    apply idLabel_inj
    cases he₁ : idLabel k₁.target; cases he₂ : idLabel k₂.target
    rw [he₁, he₂] at ht
    exact congrArg String.mk (by simpa using ht)
  have hobserver : k₁.observer = k₂.observer := by
    apply idLabel_inj
    cases he₁ : idLabel k₁.observer; cases he₂ : idLabel k₂.observer
    rw [he₁, he₂] at ho
    exact congrArg String.mk (by simpa using ho)
  have hframe : k₁.frame = k₂.frame := by
    cases hf₁ : k₁.frame; cases hf₂ : k₂.frame
    rw [hf₁, hf₂] at hf
    exact congrArg String.mk (by simpa using hf)
  cases k₁; cases k₂
  simp_all

/-! ## Index invariants -/

/-- The key set of a manager state. -/
def keysOf (s : ManagerState) : List EphemerisKey := s.index.map Prod.fst

theorem lookupKey_insert_self (k : EphemerisKey) (kern : Kernel) (s : ManagerState) :
    lookupKey k (insertKey k kern s) = some kern := by
  unfold lookupKey insertKey
  rw [List.find?_cons_of_pos _ (by simp)]
  rfl

theorem keysOf_insert (k : EphemerisKey) (kern : Kernel) (s : ManagerState) :
    keysOf (insertKey k kern s) = k :: (keysOf s).filter (fun x => x != k) := by
  unfold keysOf insertKey
  simp only [List.map_cons]
  rw [List.filter_map]
  rfl

theorem keysOf_nodup_insert {k : EphemerisKey} {kern : Kernel} {s : ManagerState}
    (h : (keysOf s).Nodup) : (keysOf (insertKey k kern s)).Nodup := by
  rw [keysOf_insert]
  refine List.Nodup.cons ?_ (h.filter _)
  intro hmem
  have := (List.mem_filter.mp hmem).2
  simp at this

/-- Case analysis of a successful `loadSourceByIds`: either the kernel at
the path serves the triple (the key registered, result `true`) or it does
not (state untouched, result `false`). -/
theorem loadSourceByIds_ok {fs : FileSystem} {path : String} {t o : Int} {f : String}
    {s : ManagerState} {b : Bool} {s' : ManagerState}
    (h : loadSourceByIds fs path t o f s = .ok (b, s')) :
    ∃ kern, fs path = some kern ∧
      ((b = true ∧ (t, o, f) ∈ kern.serves ∧ s' = insertKey ⟨t, o, f⟩ kern s) ∨
       (b = false ∧ (t, o, f) ∉ kern.serves ∧ s' = s)) := by
  unfold loadSourceByIds at h
  cases hf : fs path with
  | none => rw [hf] at h; exact absurd h (by simp)
  | some kern =>
    rw [hf] at h
    have h₂ : (if (t, o, f) ∈ kern.serves then
        (Except.ok (true, insertKey ⟨t, o, f⟩ kern s) :
          Except EphemerisError (Bool × ManagerState))
      else .ok (false, s)) = .ok (b, s') := h
    refine ⟨kern, rfl, ?_⟩
    by_cases hm : (t, o, f) ∈ kern.serves
    · rw [if_pos hm] at h₂
      simp only [Except.ok.injEq, Prod.mk.injEq] at h₂
      exact Or.inl ⟨h₂.1.symm, hm, h₂.2.symm⟩
    · rw [if_neg hm] at h₂
      simp only [Except.ok.injEq, Prod.mk.injEq] at h₂
      exact Or.inr ⟨h₂.1.symm, hm, h₂.2.symm⟩

/-- A successful name-based load resolves both names and delegates to the
id-based load. -/
theorem loadSource_ok {fs : FileSystem} {path target observer frame : String}
    {s : ManagerState} {b : Bool} {s' : ManagerState}
    (h : loadSource fs path target observer frame s = .ok (b, s')) :
    ∃ t o, nameToId target = some t ∧ nameToId observer = some o ∧
      loadSourceByIds fs path t o frame s = .ok (b, s') := by
  unfold loadSource at h
  cases ht : nameToId target with
  | none => rw [ht] at h; exact absurd h (by simp)
  | some t =>
    cases ho : nameToId observer with
    | none => rw [ht, ho] at h; exact absurd h (by simp)
    | some o =>
      rw [ht, ho] at h
      exact ⟨t, o, rfl, rfl, h⟩

theorem loadSourceByIds_nodup {fs : FileSystem} {path : String} {t o : Int} {f : String}
    {s : ManagerState} {b : Bool} {s' : ManagerState}
    (h : loadSourceByIds fs path t o f s = .ok (b, s'))
    (hn : (keysOf s).Nodup) : (keysOf s').Nodup := by
  rcases loadSourceByIds_ok h with ⟨kern, _, ⟨_, _, rfl⟩ | ⟨_, _, rfl⟩⟩
  · exact keysOf_nodup_insert hn
  · exact hn

/-- Every reachable manager state has pairwise-distinct keys in its
index. -/
theorem reachable_keys_nodup {s : ManagerState} (h : Reachable s) :
    (keysOf s).Nodup := by
  induction h with
  | init => exact List.nodup_nil
  | load fs path target observer frame s b s' _ heq ih =>
    rcases loadSource_ok heq with ⟨t, o, _, _, h'⟩
    exact loadSourceByIds_nodup h' ih
  | loadByIds fs path targetId observerId frame s b s' _ heq ih =>
    exact loadSourceByIds_nodup heq ih
  | clear s _ _ => exact List.nodup_nil

theorem listLoaded_eq_map (s : ManagerState) :
    listLoaded s = (keysOf s).map keyString := by
  unfold listLoaded keysOf
  rw [List.map_map]
  rfl

/-- Under key uniqueness, overwriting an existing key keeps the number of
index entries unchanged. -/
theorem filter_ne_length_of_mem {l : List (EphemerisKey × Kernel)} {k : EphemerisKey}
    (hn : (l.map Prod.fst).Nodup) (hm : k ∈ l.map Prod.fst) :
    (l.filter (fun p => p.1 != k)).length + 1 = l.length := by
  induction l with
  | nil => simp at hm
  | cons a t ih =>
    simp only [List.map_cons, List.nodup_cons] at hn
    rcases List.mem_cons.mp hm with hk | hk
    · have hfilter : t.filter (fun p => p.1 != k) = t := by
        apply List.filter_eq_self.mpr
        intro p hp
        simp only [bne_iff_ne, ne_eq]
        intro hpk
        exact hn.1 (hk ▸ hpk ▸ List.mem_map_of_mem Prod.fst hp)
      have hdrop : List.filter (fun p => p.1 != k) (a :: t) = t := by
        rw [List.filter_cons, if_neg (by simp [hk]), hfilter]
      rw [hdrop]
      simp
    · have ha : (a.1 != k) = true := by
        simp only [bne_iff_ne, ne_eq]
        intro hak
        exact hn.1 (hak ▸ hk)
      simp only [List.filter_cons, ha, if_pos]
      simp only [List.length_cons]
      rw [← ih hn.2 hk]

/-! ## Resolution and case lemmas -/

theorem isAvailable_resolve {target observer : String} {t o : Int} (frame : String)
    (s : ManagerState) (ht : nameToId target = some t) (ho : nameToId observer = some o) :
    isAvailable target observer frame s = (lookupKey ⟨t, o, frame⟩ s).isSome := by
  unfold isAvailable
  rw [ht, ho]

theorem getState_resolve {target observer : String} {t o : Int} (frame : String)
    (epoch : ℚ) (s : ManagerState)
    (ht : nameToId target = some t) (ho : nameToId observer = some o) :
    getState target observer frame epoch s = getStateAtKey ⟨t, o, frame⟩ epoch s := by
  unfold getState
  rw [ht, ho]

theorem getTimeBounds_resolve {target observer : String} {t o : Int} (frame : String)
    (s : ManagerState)
    (ht : nameToId target = some t) (ho : nameToId observer = some o) :
    getTimeBounds target observer frame s = timeBoundsAtKey ⟨t, o, frame⟩ s := by
  unfold getTimeBounds
  rw [ht, ho]

theorem loadSource_resolve {target observer : String} {t o : Int} (fs : FileSystem)
    (path frame : String) (s : ManagerState)
    (ht : nameToId target = some t) (ho : nameToId observer = some o) :
    loadSource fs path target observer frame s = loadSourceByIds fs path t o frame s := by
  unfold loadSource
  rw [ht, ho]

theorem getStateAtKey_absent {k : EphemerisKey} {s : ManagerState} (epoch : ℚ)
    (h : lookupKey k s = none) :
    getStateAtKey k epoch s = .error .EphemerisNotLoaded := by
  unfold getStateAtKey
  rw [h]

theorem getStateAtKey_present {k : EphemerisKey} {s : ManagerState} {kern : Kernel}
    (epoch : ℚ) (h : lookupKey k s = some kern) :
    getStateAtKey k epoch s =
      if epoch < kern.startEpoch ∨ kern.endEpoch < epoch then
        .error .EpochOutOfBounds
      else
        .ok (kern.stateAt epoch) := by
  unfold getStateAtKey
  rw [h]

theorem timeBoundsAtKey_present {k : EphemerisKey} {s : ManagerState} {kern : Kernel}
    (h : lookupKey k s = some kern) :
    timeBoundsAtKey k s = .ok (kern.startEpoch, kern.endEpoch) := by
  unfold timeBoundsAtKey
  rw [h]

theorem loadSourceByIds_open_fail {fs : FileSystem} {path : String} (t o : Int)
    (frame : String) (s : ManagerState) (h : fs path = none) :
    loadSourceByIds fs path t o frame s = .error .KernelOpenFailure := by
  unfold loadSourceByIds
  rw [h]

theorem loadSourceByIds_opened {fs : FileSystem} {path : String} {kern : Kernel}
    (t o : Int) (frame : String) (s : ManagerState) (h : fs path = some kern) :
    loadSourceByIds fs path t o frame s =
      if (t, o, frame) ∈ kern.serves then
        .ok (true, insertKey ⟨t, o, frame⟩ kern s)
      else
        .ok (false, s) := by
  unfold loadSourceByIds
  rw [h]

/-- Looking a different key up in a freshly-populated singleton index
finds nothing. -/
theorem lookupKey_singleton_ne {k k' : EphemerisKey} {kern : Kernel} (h : k ≠ k') :
    lookupKey k' (insertKey k kern ManagerState.empty) = none := by
  have hb : (k == k') = false := beq_eq_false_iff_ne.mpr h
  have hfind : List.find? (fun p : EphemerisKey × Kernel => p.1 == k') [(k, kern)] = none := by
    simp [List.find?, hb]
  show Option.map Prod.snd
    (List.find? (fun p : EphemerisKey × Kernel => p.1 == k') [(k, kern)]) = none
  rw [hfind]
  rfl

/-! ## Concrete instances used to instantiate the theorems -/

/-- A concrete kernel: serves Earth (399) relative to Sun (10) in J2000,
valid on `[0, 86400]` seconds since J2000. -/
def sampleKernel : Kernel where
  serves := [(399, 10, "J2000")]
  startEpoch := 0
  endEpoch := 86400
  stateAt := fun _ => ((7000000 : ℚ), 0, 0, 0, (7500 : ℚ), 0)

/-- A concrete filesystem holding `sampleKernel` at one path. -/
def sampleFS : FileSystem :=
  fun path => if path = "earth.spk" then some sampleKernel else none

/-- The manager after loading `sampleKernel` for Earth/Sun/J2000. -/
def sampleLoaded : ManagerState :=
  insertKey ⟨399, 10, "J2000"⟩ sampleKernel ManagerState.empty

/-! ## Claims -/

/-- Claim C1: `getState` fails with `EphemerisNotLoaded` for a key that
was never loaded; for a loaded key it fails with `EpochOutOfBounds` at
every epoch strictly outside the `[startEpoch, endEpoch]` interval
returned by `getTimeBounds`, and inside the interval the exposed call
returns a 6-element Cartesian state. -/
theorem c1_getState_error_contract :
    (∀ target observer frame epoch s t o,
        nameToId target = some t → nameToId observer = some o →
        lookupKey ⟨t, o, frame⟩ s = none →
        getState target observer frame epoch s = .error .EphemerisNotLoaded) ∧
    (∀ target observer frame epoch s t o kern,
        nameToId target = some t → nameToId observer = some o →
        lookupKey ⟨t, o, frame⟩ s = some kern →
        getTimeBounds target observer frame s = .ok (kern.startEpoch, kern.endEpoch) ∧
        ((epoch < kern.startEpoch ∨ kern.endEpoch < epoch) →
          getState target observer frame epoch s = .error .EpochOutOfBounds) ∧
        (kern.startEpoch ≤ epoch → epoch ≤ kern.endEpoch →
          ∃ v, calceph_get_state target observer frame epoch s = .ok v ∧
            v.length = 6)) := by
  constructor
  · intro target observer frame epoch s t o ht ho hl
    rw [getState_resolve frame epoch s ht ho, getStateAtKey_absent epoch hl]
  · intro target observer frame epoch s t o kern ht ho hl
    refine ⟨?_, ?_, ?_⟩
    · rw [getTimeBounds_resolve frame s ht ho, timeBoundsAtKey_present hl]
    · intro hep
      rw [getState_resolve frame epoch s ht ho, getStateAtKey_present epoch hl, if_pos hep]
    · intro h₁ h₂
      refine ⟨[(kern.stateAt epoch).1, (kern.stateAt epoch).2.1, (kern.stateAt epoch).2.2.1,
        (kern.stateAt epoch).2.2.2.1, (kern.stateAt epoch).2.2.2.2.1,
        (kern.stateAt epoch).2.2.2.2.2], ?_, rfl⟩
      unfold calceph_get_state
      rw [getState_resolve frame epoch s ht ho, getStateAtKey_present epoch hl,
        if_neg (not_or.mpr ⟨not_lt.mpr h₁, not_lt.mpr h₂⟩)]
      rfl

/-- Instance of C1: never-loaded key fails, epoch 90000 outside `[0,
86400]` fails, epoch 43200 inside succeeds with six components. -/
theorem c1_getState_error_contract_witness :
    getState "Earth" "Sun" "J2000" 0 ManagerState.empty = .error .EphemerisNotLoaded ∧
    getState "Earth" "Sun" "J2000" 90000 sampleLoaded = .error .EpochOutOfBounds ∧
    ∃ v, calceph_get_state "Earth" "Sun" "J2000" 43200 sampleLoaded = .ok v ∧
      v.length = 6 := by
  have h₂ := c1_getState_error_contract.2 "Earth" "Sun" "J2000" 90000 sampleLoaded
    399 10 sampleKernel rfl rfl rfl
  have h₃ := c1_getState_error_contract.2 "Earth" "Sun" "J2000" 43200 sampleLoaded
    399 10 sampleKernel rfl rfl rfl
  exact ⟨c1_getState_error_contract.1 "Earth" "Sun" "J2000" 0 ManagerState.empty
      399 10 rfl rfl rfl,
    h₂.2.1 (by norm_num [sampleKernel]),
    h₃.2.2 (by norm_num [sampleKernel]) (by norm_num [sampleKernel])⟩

/-- Claim C2: `loadSource` returns the plain boolean `false` exactly when
the file opens but does not serve the requested triple, fails only on an
open fault, and on `true` registers the key. -/
theorem c2_loadSource_result_contract :
    ∀ fs path target observer frame s t o,
      nameToId target = some t → nameToId observer = some o →
      ((fs path = none →
          loadSource fs path target observer frame s = .error .KernelOpenFailure) ∧
       (∀ kern, fs path = some kern → (t, o, frame) ∉ kern.serves →
          loadSource fs path target observer frame s = .ok (false, s)) ∧
       (∀ kern, fs path = some kern → (t, o, frame) ∈ kern.serves →
          loadSource fs path target observer frame s =
            .ok (true, insertKey ⟨t, o, frame⟩ kern s) ∧
          isAvailable target observer frame (insertKey ⟨t, o, frame⟩ kern s) = true)) := by
  intro fs path target observer frame s t o ht ho
  refine ⟨?_, ?_, ?_⟩
  · intro hf
    rw [loadSource_resolve fs path frame s ht ho, loadSourceByIds_open_fail t o frame s hf]
  · intro kern hf hm
    rw [loadSource_resolve fs path frame s ht ho, loadSourceByIds_opened t o frame s hf,
      if_neg hm]
  · intro kern hf hm
    constructor
    · rw [loadSource_resolve fs path frame s ht ho, loadSourceByIds_opened t o frame s hf,
        if_pos hm]
    · rw [isAvailable_resolve frame _ ht ho, lookupKey_insert_self]
      rfl

/-- Instance of C2: a missing path fails, a served pair loads with `true`,
an unserved pair yields `false` with the state unchanged. -/
theorem c2_loadSource_result_contract_witness :
    loadSource (fun _ => none) "missing.spk" "Earth" "Sun" "J2000" ManagerState.empty =
      .error .KernelOpenFailure ∧
    loadSource sampleFS "earth.spk" "Sun" "Earth" "J2000" ManagerState.empty =
      .ok (false, ManagerState.empty) ∧
    loadSource sampleFS "earth.spk" "Earth" "Sun" "J2000" ManagerState.empty =
      .ok (true, sampleLoaded) ∧
    isAvailable "Earth" "Sun" "J2000" sampleLoaded = true := by
  have h₁ := c2_loadSource_result_contract (fun _ => none) "missing.spk"
    "Earth" "Sun" "J2000" ManagerState.empty 399 10 rfl rfl
  have h₂ := c2_loadSource_result_contract sampleFS "earth.spk"
    "Sun" "Earth" "J2000" ManagerState.empty 10 399 rfl rfl
  have h₃ := c2_loadSource_result_contract sampleFS "earth.spk"
    "Earth" "Sun" "J2000" ManagerState.empty 399 10 rfl rfl
  have h₄ := h₃.2.2 sampleKernel rfl (by decide)
  exact ⟨h₁.1 rfl, h₂.2.1 sampleKernel rfl (by decide), h₄.1, h₄.2⟩

/-- Claim C3: whenever `loadSource(path, "Earth", "Sun", "J2000")` returns
`true`, `isAvailable("Earth", "Sun", "J2000")` is `true` afterwards and
`listLoaded()` contains `"Earth_Sun_J2000"`. -/
theorem c3_load_then_available :
    ∀ fs path s s',
      loadSource fs path "Earth" "Sun" "J2000" s = .ok (true, s') →
      isAvailable "Earth" "Sun" "J2000" s' = true ∧
      "Earth_Sun_J2000" ∈ listLoaded s' := by
  intro fs path s s' h
  rcases loadSource_ok h with ⟨t, o, ht, ho, hids⟩
  have ht' : t = 399 := by
    have : some (399 : Int) = some t := (rfl : nameToId "Earth" = some 399).symm.trans ht
    exact (Option.some.inj this).symm
  have ho' : o = 10 := by
    have : some (10 : Int) = some o := (rfl : nameToId "Sun" = some 10).symm.trans ho
    exact (Option.some.inj this).symm
  subst ht' ho'
  rcases loadSourceByIds_ok hids with ⟨kern, _, ⟨_, _, rfl⟩ | ⟨hb, _, _⟩⟩
  · constructor
    · have hte : nameToId "Earth" = some 399 := rfl
      have hos : nameToId "Sun" = some 10 := rfl
      rw [isAvailable_resolve "J2000" _ hte hos, lookupKey_insert_self]
      rfl
    · rw [listLoaded_eq_map, keysOf_insert]
      simp only [List.map_cons]
      rw [show keyString ⟨399, 10, "J2000"⟩ = "Earth_Sun_J2000" from rfl]
      exact List.mem_cons_self _ _
  · exact absurd hb (by simp)

/-- Instance of C3 at a concrete load. -/
theorem c3_load_then_available_witness :
    isAvailable "Earth" "Sun" "J2000" sampleLoaded = true ∧
    "Earth_Sun_J2000" ∈ listLoaded sampleLoaded :=
  c3_load_then_available sampleFS "earth.spk" ManagerState.empty sampleLoaded rfl

/-- Claim C4: `clearAll` never fails (it is a total function of the
state); afterwards `listLoaded` is empty and `isAvailable` is `false` for
every key, and clearing again is a no-op. -/
theorem c4_clearAll_contract :
    ∀ s : ManagerState,
      listLoaded (clearAll s) = [] ∧
      (∀ target observer frame, isAvailable target observer frame (clearAll s) = false) ∧
      clearAll (clearAll s) = clearAll s := by
  intro s
  refine ⟨rfl, ?_, rfl⟩
  intro target observer frame
  unfold isAvailable
  rcases nameToId target with _ | t <;> rcases nameToId observer with _ | o <;> rfl

/-- Claim C5: for names whose registry identifiers are `(t, o)`, the
name-based and id-based loads produce identical results — and hence
identical post-states, on which `isAvailable` agrees. -/
theorem c5_load_name_id_equivalence :
    ∀ fs path target observer frame s t o,
      nameToId target = some t → nameToId observer = some o →
      loadSource fs path target observer frame s =
        loadSourceByIds fs path t o frame s := by
  intro fs path target observer frame s t o ht ho
  unfold loadSource
  rw [ht, ho]

/-- Instance of C5: Earth/Sun versus 399/10. -/
theorem c5_load_name_id_equivalence_witness :
    loadSource sampleFS "earth.spk" "Earth" "Sun" "J2000" ManagerState.empty =
      loadSourceByIds sampleFS "earth.spk" 399 10 "J2000" ManagerState.empty :=
  c5_load_name_id_equivalence sampleFS "earth.spk" "Earth" "Sun" "J2000"
    ManagerState.empty 399 10 rfl rfl

/-- Claim C6: every `(name, id)` pair of the registry table round-trips
through `nameToId`/`idToName` in both directions; in particular
`nameToId "Earth" = 399` and `idToName 10 = "Sun"`. -/
theorem c6_registry_roundtrip :
    (∀ p ∈ bodyTable,
        (nameToId p.1).bind idToName = some p.1 ∧
        (idToName p.2).bind nameToId = some p.2) ∧
    nameToId "Earth" = some 399 ∧ idToName 10 = some "Sun" := by
  refine ⟨?_, rfl, rfl⟩
  decide

/-- Instance of C6 at the `("Earth", 399)` table entry. -/
theorem c6_registry_roundtrip_witness :
    (nameToId "Earth").bind idToName = some "Earth" ∧
    (idToName 399).bind nameToId = some 399 :=
  c6_registry_roundtrip.1 ("Earth", 399) (by decide)

/-- Claim C7: keys in the cache index are unique — reloading an
already-registered key overwrites its mapping (last-load-wins, no second
entry, the entry count is unchanged), and `listLoaded` of any reachable
state contains no duplicate key strings. -/
theorem c7_keys_unique :
    (∀ s, Reachable s → (listLoaded s).Nodup) ∧
    (∀ fs path t o frame s s' kern, Reachable s → fs path = some kern →
        loadSourceByIds fs path t o frame s = .ok (true, s') →
        lookupKey ⟨t, o, frame⟩ s' = some kern ∧
        ((⟨t, o, frame⟩ : EphemerisKey) ∈ keysOf s →
          s'.index.length = s.index.length)) := by
  constructor
  · intro s hr
    rw [listLoaded_eq_map]
    exact (reachable_keys_nodup hr).map keyString_inj
  · intro fs path t o frame s s' kern hr hf h
    rcases loadSourceByIds_ok h with ⟨kern', hf', ⟨_, _, rfl⟩ | ⟨hb, _, _⟩⟩
    · have hk : kern' = kern := by
        have := hf'.symm.trans hf
        exact Option.some.inj this
      subst hk
      refine ⟨lookupKey_insert_self _ _ _, ?_⟩
      intro hmem
      show (_ :: List.filter _ s.index).length = s.index.length
      rw [List.length_cons]
      exact filter_ne_length_of_mem (reachable_keys_nodup hr) hmem
    · exact absurd hb (by simp)

/-- Instance of C7: the singleton state is duplicate-free and reloading
its key keeps a single entry with the new mapping. -/
theorem c7_keys_unique_witness :
    (listLoaded sampleLoaded).Nodup ∧
    lookupKey ⟨399, 10, "J2000"⟩
      (insertKey ⟨399, 10, "J2000"⟩ sampleKernel sampleLoaded) = some sampleKernel ∧
    (insertKey ⟨399, 10, "J2000"⟩ sampleKernel sampleLoaded).index.length =
      sampleLoaded.index.length := by
  have hr : Reachable sampleLoaded :=
    Reachable.loadByIds sampleFS "earth.spk" 399 10 "J2000" ManagerState.empty
      true sampleLoaded Reachable.init rfl
  have h := c7_keys_unique.2 sampleFS "earth.spk" 399 10 "J2000" sampleLoaded
    (insertKey ⟨399, 10, "J2000"⟩ sampleKernel sampleLoaded) sampleKernel hr rfl rfl
  exact ⟨c7_keys_unique.1 sampleLoaded hr, h.1, h.2 (by decide)⟩

/-- Claim C8: `isAvailable` is a total pure probe: with an unresolvable
target or observer name it returns `false` instead of raising an error
(and, being a plain function into `Bool`, it can neither throw nor
load). -/
theorem c8_isAvailable_safe_probe :
    ∀ target observer frame s,
      (nameToId target = none ∨ nameToId observer = none) →
      isAvailable target observer frame s = false := by
  intro target observer frame s h
  unfold isAvailable
  rcases h with h | h
  · rw [h]
  · rw [h]
    rcases nameToId target with _ | t <;> rfl

/-- Instance of C8: an unknown body name probes to `false`. -/
theorem c8_isAvailable_safe_probe_witness :
    isAvailable "Atlantis" "Sun" "J2000" sampleLoaded = false :=
  c8_isAvailable_safe_probe "Atlantis" "Sun" "J2000" sampleLoaded (Or.inl rfl)

/-- Claim C9: two `EphemerisKey`s are equal iff target, observer and
frame all match exactly; after loading only (Earth, Sun, F) the swapped
probe (Sun, Earth, F) is unavailable. -/
theorem c9_key_equality_no_swap :
    (∀ k₁ k₂ : EphemerisKey, k₁ = k₂ ↔
        (k₁.target = k₂.target ∧ k₁.observer = k₂.observer ∧ k₁.frame = k₂.frame)) ∧
    (∀ fs path frame s',
        loadSource fs path "Earth" "Sun" frame ManagerState.empty = .ok (true, s') →
        isAvailable "Sun" "Earth" frame s' = false) := by
  constructor
  · intro k₁ k₂
    constructor
    · intro h; subst h; exact ⟨rfl, rfl, rfl⟩
    · intro h
      cases k₁; cases k₂
      simp_all
  · intro fs path frame s' h
    rcases loadSource_ok h with ⟨t, o, ht, ho, hids⟩
    have ht' : t = 399 := by
      have : some (399 : Int) = some t := (rfl : nameToId "Earth" = some 399).symm.trans ht
      exact (Option.some.inj this).symm
    have ho' : o = 10 := by
      have : some (10 : Int) = some o := (rfl : nameToId "Sun" = some 10).symm.trans ho
      exact (Option.some.inj this).symm
    subst ht' ho'
    rcases loadSourceByIds_ok hids with ⟨kern, _, ⟨_, _, rfl⟩ | ⟨hb, _, _⟩⟩
    · have hne : (⟨399, 10, frame⟩ : EphemerisKey) ≠ ⟨10, 399, frame⟩ := by
        intro he
        have h₃ := congrArg EphemerisKey.target he
        norm_num at h₃
      have hts : nameToId "Sun" = some 10 := rfl
      have hoe : nameToId "Earth" = some 399 := rfl
      rw [isAvailable_resolve frame _ hts hoe, lookupKey_singleton_ne hne]
      rfl
    · exact absurd hb (by simp)

/-- Instance of C9: swapped-pair lookup after the concrete load. -/
theorem c9_key_equality_no_swap_witness :
    ((⟨399, 10, "J2000"⟩ : EphemerisKey) = ⟨399, 10, "J2000"⟩) ∧
    isAvailable "Sun" "Earth" "J2000" sampleLoaded = false :=
  ⟨(c9_key_equality_no_swap.1 ⟨399, 10, "J2000"⟩ ⟨399, 10, "J2000"⟩).mpr ⟨rfl, rfl, rfl⟩,
   c9_key_equality_no_swap.2 sampleFS "earth.spk" "J2000" sampleLoaded rfl⟩

/-- Claim C10: whenever the manager's `getTimeBounds` succeeds, the
exposed `calceph_get_time_bounds` returns a vector of exactly two
elements, the start epoch first and the end epoch second. -/
theorem c10_time_bounds_vector :
    ∀ target observer frame s a b,
      getTimeBounds target observer frame s = .ok (a, b) →
      ∃ v, calceph_get_time_bounds target observer frame s = .ok v ∧
        v.length = 2 ∧ v.head? = some a ∧ v.getLast? = some b := by
  intro target observer frame s a b h
  refine ⟨[a, b], ?_, rfl, rfl, rfl⟩
  unfold calceph_get_time_bounds
  rw [h]
  rfl

/-- Instance of C10 at the concrete loaded state: bounds `(0, 86400)`. -/
theorem c10_time_bounds_vector_witness :
    ∃ v, calceph_get_time_bounds "Earth" "Sun" "J2000" sampleLoaded = .ok v ∧
      v.length = 2 ∧ v.head? = some (0 : ℚ) ∧ v.getLast? = some (86400 : ℚ) :=
  c10_time_bounds_vector "Earth" "Sun" "J2000" sampleLoaded 0 86400 rfl

end TudatWasm
